import Mathlib

/-!
Shallow embedding of the node-execution engine of this repository
(`nipype/pipeline/node_wrapper.py`, class `NodeWrapper`).

Modelling conventions:
* Python values held in input/output records become `Value` (Python `None`,
  scalars such as numbers/strings/file paths collapsed to a tagged string,
  and lists).
* Filesystem paths become `FPath := List String` (`os.path.join` is append).
* The observable process state (`PState`) carries the file map, the current
  working directory (`os.getcwd` / `os.chdir`), the `mkdtemp` allocation
  counter, and an instrumentation trace recording the input store passed to
  each invocation of the execution adapter's `run` method.
* The execution adapter (`self._interface`, an external collaborator per the
  spec) is a record of pure functions `Adapter`; `Env` carries the remaining
  external helpers (`save_json` serializability, file openability, `copyfiles`
  staging, `mkdtemp`, `Bunch._get_bunch_hash`).
* Python exceptions become the error side of `Except`; since an exception
  escapes with whatever side effects already happened, errors carry the node
  and process state at raise time.
* Adapter return codes are `Int` (the adapter contract declares
  `returncode : int`), so Python truthiness of `returncode` is `≠ 0`.
* Omitted as unobservable by any claim: the `self._result.interface` list,
  the debugging attribute `self._itervals` set just before the iteration
  raise, `iterables`/`parameterization`, directory creation (`os.mkdir` /
  `_make_output_dir`), and logging calls.
-/

/-- Python values stored in input and output records: `None`, a scalar
(string, number or file path, collapsed to a tagged string), or a list. -/
inductive Value where
  | vnone : Value
  | atom : String → Value
  | vlist : List Value → Value

/-- Filesystem path, as a list of components; `os.path.join` is append. -/
abbrev FPath := List String

/-- File map of the modelled filesystem: association list from path to file
content. -/
abbrev FS := List (FPath × String)

/-- Input (or output) record: association list from parameter name to value,
modelling a `Bunch`. -/
abbrev InputStore := List (String × Value)

/-- Lookup in an association list keyed by strings (first binding wins). -/
def alGet {α : Type} : List (String × α) → String → Option α
  | [], _ => none
  | (k, v) :: rest, key => if key = k then some v else alGet rest key

/-- Update in an association list: replace the first binding in place, or
append a new binding at the end (dictionary/`setattr` semantics). -/
def alSet {α : Type} : List (String × α) → String → α → List (String × α)
  | [], key, v => [(key, v)]
  | (k, w) :: rest, key, v =>
      if key = k then (key, v) :: rest else (k, w) :: alSet rest key v

/-- `Bunch.get`: dictionary lookup returning Python `None` when missing. -/
def bget (s : InputStore) (key : String) : Value :=
  (alGet s key).getD Value.vnone

/-- Python `list.insert(i, val)`: insert before position `i`, clamping to an
append when `i` is at least the length. -/
def pyInsert {α : Type} (l : List α) (i : Nat) (v : α) : List α :=
  l.take i ++ v :: l.drop i

/-- Whether `dir` is a path prefix of `p` (so `p` lies under directory
`dir`). -/
def underDir : FPath → FPath → Bool
  | [], _ => true
  | _ :: _, [] => false
  | d :: ds, p :: ps => d == p && underDir ds ps

/-- Whether a file exists at path `p` (`os.path.exists`). -/
def fsExists (fs : FS) (p : FPath) : Bool :=
  fs.any (fun e => e.1 == p)

/-- Write (create or overwrite) the file at `p` with content `c`. -/
def fsWrite (fs : FS) (p : FPath) (c : String) : FS :=
  (p, c) :: fs

/-- Modelled from the spec: `cleandir` (from `nipype.utils.filemanip`, not
under `src/`) clears stale working-directory contents before a fresh
execution, removing every file lying under the given directory. -/
def cleandir (fs : FS) (dir : FPath) : FS :=
  fs.filter (fun e => !(underDir dir e.1))

/-- Captured runtime of one adapter invocation: exit status and stderr.
The adapter contract declares `returncode : int`. -/
structure Runtime where
  returncode : Int
  stderr : String

/-- The `runtime` slot of an `InterfaceResult`: `None` on the cache-skip
path, a single `Runtime` for a plain run, a list of them when iterating. -/
inductive RT where
  | rtNone : RT
  | single : Runtime → RT
  | rlist : List Runtime → RT

/-- `InterfaceResult`: runtime status plus the output record. -/
structure IResult where
  runtime : RT
  outputs : List (String × Value)

/-- Result of one call to the adapter's `run`: runtime plus outputs. -/
structure AdapterResult where
  runtime : Runtime
  outputs : List (String × Value)

/-- External helper functions surrounding the node: openability and JSON
serializability for `save_json`, serialized forms, `copyfiles` staging,
`mkdtemp` allocation, `str(self.inputs)`, and `Bunch._get_bunch_hash`
(hashed inputs and hash value as pure functions of the input record). -/
structure Env where
  openable : FPath → Bool
  serializable : Value → Bool
  jsonForm : Value → String
  strForm : Value → String
  stage : Value → FPath → Value
  mkdtemp : Nat → FPath
  showInputs : InputStore → String
  hashedInputs : InputStore → Value
  hashValue : InputStore → String

/-- The execution adapter (`self._interface`): a deterministic `run`
capability taking the current input record and working directory, an
`aggregate_outputs` capability collecting outputs without executing, the
class/module names used for default node naming, and the initial input
record. The modelled adapters expose no `get_input_info`, so the optional
file-staging loops in `run` are skipped (`hasattr` is false). -/
structure Adapter where
  runFn : InputStore → Option FPath → AdapterResult
  aggregate : InputStore → List (String × Value)
  className : String
  moduleName : String
  inputs0 : InputStore

/-- Observable process state: file map, current working directory,
`mkdtemp` allocation counter, and the instrumentation trace of adapter
`run` invocations (input record at each call). -/
structure PState where
  fs : FS
  cwd : FPath
  tmpCount : Nat
  trace : List InputStore

/-- Kinds of Python exceptions escaping the modelled code. -/
inductive ErrKind where
  | runtimeError
  | standardError
  | attributeError
  | ioError
  | exceptionError
  | valueError

/-- A raised Python exception: kind and message. -/
structure Fail where
  kind : ErrKind
  msg : String

/-- The node (`class NodeWrapper`) state: identity, execution mode, caching
policy, iteration fields, the owned input record, the dynamically set node
attributes (`setattr(self, ...)` fallback), and the last result. -/
structure NodeWrapper where
  name : String
  id : String
  disk_based : Bool
  overwrite : Bool
  output_directory_base : Option FPath
  iterfield : List String
  inputs : InputStore
  nattrs : InputStore
  result : Option IResult

/-- Outcome of a stateful node operation: on success the updated node and
process state; a raised exception escapes with the node and state at raise
time. -/
abbrev RunRes := Except (Fail × NodeWrapper × PState) (NodeWrapper × PState)

/-- `NodeWrapper.set_input`: set the interface input when the parameter
exists there, otherwise set a node attribute. -/
def NodeWrapper.set_input (self : NodeWrapper) (parameter : String) (val : Value) :
    NodeWrapper :=
  if (alGet self.inputs parameter).isSome then
    { self with inputs := alSet self.inputs parameter val }
  else
    { self with nattrs := alSet self.nattrs parameter val }

/-- `NodeWrapper.get_output`: `None` when no result has been produced;
otherwise the result output when declared, else the node attribute
(`getattr` raising `AttributeError` when absent). -/
def NodeWrapper.get_output (self : NodeWrapper) (parameter : String) :
    Except Fail (Option Value) :=
  match self.result with
  | none => .ok none
  | some res =>
    match alGet res.outputs parameter with
    | some v => .ok (some v)
    | none =>
      match alGet self.nattrs parameter with
      | some v => .ok (some v)
      | none => .error ⟨ErrKind.attributeError, parameter⟩

/-- Failure modes of `save_json`. -/
inductive JsonErr where
  | ioError
  | typeError

/-- Modelled from the spec: `save_json` (from `nipype.utils.filemanip`, not
under `src/`) opens the file for writing and then JSON-serializes the data
into it, so it raises `IOError` when the file cannot be opened and
`TypeError` when a value is not representable in the persisted format. -/
def save_json (env : Env) (fs : FS) (p : FPath) (v : Value) : Except JsonErr FS :=
  if env.openable p then
    if env.serializable v then .ok (fsWrite fs p (env.jsonForm v))
    else .error JsonErr.typeError
  else .error JsonErr.ioError

/-- `NodeWrapper._save_hashfile`: try `save_json`; on `TypeError` fall back
to writing `str(hashed_inputs)` into the marker file; on `IOError` only log
and return. -/
def NodeWrapper._save_hashfile (env : Env) (fs : FS) (hashfile : FPath)
    (hashed_inputs : Value) : Except Fail FS :=
  match save_json env fs hashfile hashed_inputs with
  | .ok fs2 => .ok fs2
  | .error JsonErr.typeError =>
      if env.openable hashfile then
        .ok (fsWrite fs hashfile (env.strForm hashed_inputs))
      else .error ⟨ErrKind.ioError, "open failed"⟩
  | .error JsonErr.ioError => .ok fs

/-- `NodeWrapper._output_directory`: lazily allocate the base directory via
`mkdtemp` when unset (memoized on the node), and return
`base/<self.name>`. -/
def NodeWrapper._output_directory (env : Env) (self : NodeWrapper) (st : PState) :
    NodeWrapper × PState × FPath :=
  match self.output_directory_base with
  | some b => (self, st, b ++ [self.name])
  | none =>
      let d := env.mkdtemp st.tmpCount
      ({ self with output_directory_base := some d },
       { st with tmpCount := st.tmpCount + 1 }, d ++ [self.name])

/-- The working directory the node resolves to, as a pure function of the
pre-call state (agrees with `_output_directory` in both cases). -/
def resolvedOutdir (env : Env) (self : NodeWrapper) (st : PState) : FPath :=
  (self.output_directory_base.getD (env.mkdtemp st.tmpCount)) ++ [self.name]

/-- Cache marker path `<outdir>/_0x<hash>.json` for the node's current
inputs, as a pure function of the pre-call state. -/
def hashfileFPath (env : Env) (self : NodeWrapper) (st : PState) : FPath :=
  resolvedOutdir env self st ++ ["_0x" ++ env.hashValue self.inputs ++ ".json"]

/-- Coercion of an iteration field value to the per-iteration list:
`itervals[field] = [itervals[field]]` when the value is not a list. -/
def coerceList (v : Value) : List Value :=
  match v with
  | Value.vlist l => l
  | w => [w]

/-- Whether an iteration field value required the scalar-to-list coercion
(the `notlist[field]` flag). -/
def isNotList (v : Value) : Bool :=
  match v with
  | Value.vlist _ => false
  | _ => true

/-- Per-iteration subdirectory `<basewd>/<field0>_<i>`. -/
def subdirFPath (basewd : Option FPath) (fld0 : String) (i : Nat) : FPath :=
  basewd.getD [] ++ [fld0 ++ "_" ++ toString i]

/-- One output key added during iteration aggregation:
`self._result.outputs.get(key).insert(i, val)` when the key already holds a
list, with the `AttributeError` fallback `setattr(..., key, [val])` when the
key is missing (`get` returned `None`) or holds a value without `insert`. -/
def aggAdd (store : List (String × Value)) (i : Nat) (key : String) (val : Value) :
    List (String × Value) :=
  match alGet store key with
  | some (Value.vlist l) => alSet store key (Value.vlist (pyInsert l i val))
  | some _ => alSet store key (Value.vlist [val])
  | none => alSet store key (Value.vlist [val])

/-- The `for key,val in outputs.iteritems()` aggregation loop at iteration
index `i`. -/
def addOutputs (store : List (String × Value)) (i : Nat)
    (outs : List (String × Value)) : List (String × Value) :=
  outs.foldl (fun s kv => aggAdd s i kv.1 kv.2) store

/-- `self._result.runtime.insert(i, result.runtime)` on the iteration path
(the runtime slot holds a list there). -/
def IResult.insertRuntime (res : IResult) (i : Nat) (r : Runtime) : IResult :=
  match res.runtime with
  | RT.rlist rs => { res with runtime := RT.rlist (pyInsert rs i r) }
  | rt => { res with runtime := rt }

/-- The inner `for field in self.iterfield` loop: set each field's
per-iteration value. -/
def setFields (rv : String → Value) (fields : List String) (node : NodeWrapper) :
    NodeWrapper :=
  fields.foldl (fun n f => n.set_input f (rv f)) node

/-- One iteration of the `iterfield` loop body of `_run_interface`:
subdirectory switch (disk-based), per-field input update, adapter invocation
(or `aggregate_outputs` when not executing), early raise on nonzero return
status, and output aggregation. -/
def iterStep (ad : Adapter) (env : Env) (execute diskb : Bool)
    (fields : List String) (fld0 : String) (itervals : String → List Value)
    (basewd : Option FPath) (i : Nat) (node : NodeWrapper) (st : PState) : RunRes :=
  let subdir := subdirFPath basewd fld0 i
  let st := if diskb then { st with cwd := subdir } else st
  let cwdv : Option FPath := if diskb then some subdir else basewd
  let node := setFields
    (fun f =>
      if diskb then env.stage ((itervals f).getD i Value.vnone) subdir
      else (itervals f).getD i Value.vnone)
    fields node
  if execute then
    let r := ad.runFn node.inputs cwdv
    let st := { st with trace := st.trace ++ [node.inputs] }
    if r.runtime.returncode ≠ 0 then
      .error (⟨ErrKind.runtimeError, r.runtime.stderr⟩, node, st)
    else
      let res0 := node.result.getD ⟨RT.rlist [], []⟩
      let res1 := res0.insertRuntime i r.runtime
      let res2 := { res1 with outputs := addOutputs res1.outputs i r.outputs }
      .ok ({ node with result := some res2 }, st)
  else
    let outs := ad.aggregate node.inputs
    let res0 := node.result.getD ⟨RT.rlist [], []⟩
    let res2 := { res0 with outputs := addOutputs res0.outputs i outs }
    .ok ({ node with result := some res2 }, st)

/-- The `for i,v in enumerate(itervals[self.iterfield[0]])` loop, driven by
the list of iteration indices; a raise aborts the remaining iterations. -/
def iterLoop (ad : Adapter) (env : Env) (execute diskb : Bool)
    (fields : List String) (fld0 : String) (itervals : String → List Value)
    (basewd : Option FPath) : List Nat → NodeWrapper → PState → RunRes
  | [], node, st => .ok (node, st)
  | i :: rest, node, st =>
    match iterStep ad env execute diskb fields fld0 itervals basewd i node st with
    | .error e => .error e
    | .ok (n, s) =>
        iterLoop ad env execute diskb fields fld0 itervals basewd rest n s

/-- Body of `_run_interface` after the working-directory resolution: change
into the working directory, run the adapter (once, or per iteration value
with output aggregation and input restoration), or collect outputs via
`aggregate_outputs` when not executing; the directory saved in `old_cwd` is
restored only on the normal exit path (the source has no try/finally around
the raises). -/
def runInterfaceCore (ad : Adapter) (env : Env) (self : NodeWrapper)
    (st : PState) (execute : Bool) (old_cwd : FPath) (cwdv : Option FPath) :
    RunRes :=
  let st := match cwdv with | some c => { st with cwd := c } | none => st
  let basewd := cwdv
  match self.iterfield with
  | [] =>
    if execute then
      let r := ad.runFn self.inputs cwdv
      let st := { st with trace := st.trace ++ [self.inputs] }
      let self := { self with result := some ⟨RT.single r.runtime, r.outputs⟩ }
      if r.runtime.returncode ≠ 0 then
        .error (⟨ErrKind.runtimeError, r.runtime.stderr⟩, self, st)
      else
        .ok (self, if cwdv.isSome then { st with cwd := old_cwd } else st)
    else
      let aggouts := ad.aggregate self.inputs
      let self := { self with result := some ⟨RT.rtNone, aggouts⟩ }
      .ok (self, if cwdv.isSome then { st with cwd := old_cwd } else st)
  | fld0 :: _ =>
    let itervals : String → List Value := fun f => coerceList (bget self.inputs f)
    let notlist : String → Bool := fun f => isNotList (bget self.inputs f)
    let self := { self with result := some ⟨RT.rlist [], []⟩ }
    match iterLoop ad env execute self.disk_based self.iterfield fld0 itervals
        basewd (List.range (itervals fld0).length) self st with
    | .error e => .error e
    | .ok (self2, st2) =>
      let self3 := setFields
        (fun f =>
          if notlist f then (itervals f).getLastD Value.vnone
          else Value.vlist (itervals f))
        self.iterfield self2
      .ok (self3, if cwdv.isSome then { st2 with cwd := old_cwd } else st2)

/-- `NodeWrapper._run_interface`: resolve the working directory (allocating
the output directory for a disk-based node when no directory was passed),
then run the post-resolution body `runInterfaceCore`. -/
def NodeWrapper._run_interface (ad : Adapter) (env : Env) (self : NodeWrapper)
    (st : PState) (execute : Bool) (cwd0 : Option FPath) : RunRes :=
  let old_cwd := st.cwd
  let resolved : NodeWrapper × PState × Option FPath :=
    match cwd0 with
    | some c => (self, st, some c)
    | none =>
      if self.disk_based then
        let r := NodeWrapper._output_directory env self st
        (r.1, r.2.1, some r.2.2)
      else (self, st, none)
  runInterfaceCore ad env resolved.1 resolved.2.1 execute old_cwd resolved.2.2

/-- Combined return status of a result: maximum over the runtime list when
iterating, the single return code otherwise. -/
def resultReturncode : Option IResult → Int
  | some res =>
    match res.runtime with
    | RT.rlist rs => rs.foldl (fun acc r => max r.returncode acc) 0
    | RT.single r => r.returncode
    | RT.rtNone => 0
  | none => 0

/-- The `self._result.runtime.stderr` access used when building the
secondary error message in `run`. -/
def resultStderr : Option IResult → String
  | some res =>
    match res.runtime with
    | RT.single r => r.stderr
    | _ => ""
  | none => ""

/-- `NodeWrapper.run`: for a disk-based node, resolve the working directory,
compute the input hash and marker path, persist the marker in update-hash
mode, execute (cleaning the directory first) when the marker is absent or
`overwrite` is set — persisting the marker on a fully successful execution —
and otherwise skip execution and only collect outputs; a non-disk-based node
executes directly. -/
def NodeWrapper.run (ad : Adapter) (env : Env) (self : NodeWrapper) (st : PState)
    (updatehash : Bool) : RunRes :=
  if self.disk_based then
    let r0 := NodeWrapper._output_directory env self st
    let self := r0.1
    let st := r0.2.1
    let outdir := r0.2.2
    let hashed_inputs := env.hashedInputs self.inputs
    let hashvalue := env.hashValue self.inputs
    let hashfile := outdir ++ ["_0x" ++ hashvalue ++ ".json"]
    let saved : Except Fail FS :=
      if updatehash then NodeWrapper._save_hashfile env st.fs hashfile hashed_inputs
      else .ok st.fs
    match saved with
    | .error e => .error (e, self, st)
    | .ok fs1 =>
      let st := { st with fs := fs1 }
      if !updatehash && (self.overwrite || !(fsExists st.fs hashfile)) then
        let st := { st with fs := cleandir st.fs outdir }
        match NodeWrapper._run_interface ad env self st true (some outdir) with
        | .error e => .error e
        | .ok (self2, st2) =>
          let returncode := resultReturncode self2.result
          if returncode = 0 then
            match NodeWrapper._save_hashfile env st2.fs hashfile hashed_inputs with
            | .error e => .error (e, self2, st2)
            | .ok fs2 => .ok (self2, { st2 with fs := fs2 })
          else
            .error (⟨ErrKind.standardError,
              "Could not run " ++ self2.name ++ "\nwith inputs:\n" ++
                env.showInputs self2.inputs ++ "\n\tstderr: " ++
                resultStderr self2.result⟩, self2, st2)
      else
        NodeWrapper._run_interface ad env self st false (some outdir)
  else
    NodeWrapper._run_interface ad env self st true none

/-- The `NodeWrapper.__init__` constructor: requires an interface, rejects a
base directory on a non-disk-based node, applies the default
`classname.modulename` naming, and stores the caching policy only for
disk-based nodes. -/
def NodeWrapper.init (interface : Option Adapter) (iterfield : List String)
    (diskbased : Bool) (base_directory : Option FPath) (overwrite : Bool)
    (name : Option String) : Except Fail NodeWrapper :=
  match interface with
  | none => .error ⟨ErrKind.exceptionError, "Interface must be provided"⟩
  | some intf =>
    if !diskbased && base_directory.isSome then
      .error ⟨ErrKind.valueError, "Setting base_directory requires a disk based interface"⟩
    else
      let nm :=
        match name with
        | none => intf.className ++ "." ++ (intf.moduleName.splitOn ".").getLastD ""
        | some n => n
      .ok { name := nm
            id := nm
            disk_based := diskbased
            overwrite := if diskbased then overwrite else false
            output_directory_base := if diskbased then base_directory else none
            iterfield := iterfield
            inputs := intf.inputs0
            nattrs := []
            result := none }

/-- The input record passed to the adapter at iteration index `i` of a
single-iterfield run: the original record with the iteration field set to
the (staged, when disk-based) `i`-th iteration value. -/
def stagedValAt (env : Env) (diskb : Bool) (basewd : Option FPath) (fld : String)
    (vs : List Value) (i : Nat) : Value :=
  if diskb then env.stage (vs.getD i Value.vnone) (subdirFPath basewd fld i)
  else vs.getD i Value.vnone

/-- Input record at iteration index `i` (see `stagedValAt`). -/
def stepInputs (env : Env) (diskb : Bool) (basewd : Option FPath) (fld : String)
    (orig : InputStore) (vs : List Value) (i : Nat) : InputStore :=
  alSet orig fld (stagedValAt env diskb basewd fld vs i)

/-- Working directory passed to the adapter at iteration index `i`. -/
def stepCwd (diskb : Bool) (basewd : Option FPath) (fld : String) (i : Nat) :
    Option FPath :=
  if diskb then some (subdirFPath basewd fld i) else basewd

/-- Return status of the adapter invocation at iteration index `i`. -/
def rcAt (ad : Adapter) (env : Env) (diskb : Bool) (basewd : Option FPath)
    (fld : String) (orig : InputStore) (vs : List Value) (i : Nat) : Int :=
  (ad.runFn (stepInputs env diskb basewd fld orig vs i)
    (stepCwd diskb basewd fld i)).runtime.returncode

/-- Captured stderr of the adapter invocation at iteration index `i`. -/
def stderrAt (ad : Adapter) (env : Env) (diskb : Bool) (basewd : Option FPath)
    (fld : String) (orig : InputStore) (vs : List Value) (i : Nat) : String :=
  (ad.runFn (stepInputs env diskb basewd fld orig vs i)
    (stepCwd diskb basewd fld i)).runtime.stderr

/-- Whether `hay` starts with `needle` (character lists). -/
def listStarts : List Char → List Char → Bool
  | _, [] => true
  | [], _ :: _ => false
  | h :: hs, n :: ns => h == n && listStarts hs ns

/-- Whether `needle` occurs as a contiguous substring of `hay`
(character lists). -/
def listHasSub : List Char → List Char → Bool
  | [], needle => needle.isEmpty
  | h :: hs, needle => listStarts (h :: hs) needle || listHasSub hs needle

/-- Concrete external environment for the evaluated instances: everything
openable and serializable, identity staging, numbered temp directories,
constant hash. -/
def envC : Env where
  openable := fun _ => true
  serializable := fun _ => true
  jsonForm := fun _ => "jsonbody"
  strForm := fun _ => "strbody"
  stage := fun v _ => v
  mkdtemp := fun n => ["tmp" ++ toString n]
  showInputs := fun _ => "inputsrepr"
  hashedInputs := fun _ => Value.atom "hashed"
  hashValue := fun _ => "abc"

/-- Concrete adapter that always succeeds and produces one output key. -/
def adOK : Adapter where
  runFn := fun _ _ => ⟨⟨0, ""⟩, [("out", Value.atom "v")]⟩
  aggregate := fun _ => [("out", Value.atom "v")]
  className := "Tool"
  moduleName := "pkg.mod"
  inputs0 := [("f", Value.atom "x")]

/-- Concrete adapter that always fails with stderr "boom". -/
def adFail : Adapter where
  runFn := fun _ _ => ⟨⟨1, "boom"⟩, []⟩
  aggregate := fun _ => []
  className := "Tool"
  moduleName := "pkg.mod"
  inputs0 := [("f", Value.atom "x")]

/-- Concrete adapter that fails exactly when the iteration field `f` holds
the scalar "b", and otherwise echoes the field value to output key "out". -/
def adFailOnB : Adapter where
  runFn := fun s _ =>
    match bget s "f" with
    | Value.atom a =>
        if a = "b" then ⟨⟨1, "boom"⟩, []⟩
        else ⟨⟨0, ""⟩, [("out", bget s "f")]⟩
    | _ => ⟨⟨0, ""⟩, [("out", bget s "f")]⟩
  aggregate := fun _ => []
  className := "Tool"
  moduleName := "pkg.mod"
  inputs0 := [("f", Value.vlist [Value.atom "a", Value.atom "b", Value.atom "c"])]

/-- Concrete disk-based node without iteration. -/
def nodeDisk : NodeWrapper where
  name := "NODE123"
  id := "NODE123"
  disk_based := true
  overwrite := false
  output_directory_base := some ["wf"]
  iterfield := []
  inputs := [("f", Value.atom "x")]
  nattrs := []
  result := none

/-- Concrete disk-based node iterating field `f` over `[a, b, c]`. -/
def nodeIter : NodeWrapper where
  name := "NODE123"
  id := "NODE123"
  disk_based := true
  overwrite := false
  output_directory_base := some ["wf"]
  iterfield := ["f"]
  inputs := [("f", Value.vlist [Value.atom "a", Value.atom "b", Value.atom "c"])]
  nattrs := []
  result := none

/-- Concrete non-disk-based node iterating field `f` over `[a, b, c]`. -/
def nodeIterNoDisk : NodeWrapper where
  name := "NODE123"
  id := "NODE123"
  disk_based := false
  overwrite := false
  output_directory_base := none
  iterfield := ["f"]
  inputs := [("f", Value.vlist [Value.atom "a", Value.atom "b", Value.atom "c"])]
  nattrs := []
  result := none

/-- Concrete initial process state. -/
def st0 : PState where
  fs := []
  cwd := ["home"]
  tmpCount := 0
  trace := []

/-- Environment in which no value is JSON-serializable. -/
def envNoJson : Env :=
  { envC with serializable := fun _ => false }

/-- Environment in which no file can be opened for writing. -/
def envNoOpen : Env :=
  { envC with openable := fun _ => false }

/-- Concrete adapter that succeeds and echoes the iteration field `f` to
output key "out". -/
def adEcho : Adapter where
  runFn := fun s _ => ⟨⟨0, ""⟩, [("out", bget s "f")]⟩
  aggregate := fun s => [("out", bget s "f")]
  className := "Tool"
  moduleName := "pkg.mod"
  inputs0 := [("f", Value.vlist [Value.atom "a", Value.atom "b", Value.atom "c"])]

/-- The `InterfaceResult` produced by a successful non-iterating execution
with working directory `c`: single runtime plus the adapter outputs. -/
def execResult (ad : Adapter) (c : FPath) (s : InputStore) : IResult :=
  ⟨RT.single (ad.runFn s (some c)).runtime, (ad.runFn s (some c)).outputs⟩

/-- The `InterfaceResult` after a successful execute iteration at index `i`
of a single-iterfield run: runtime inserted at `i`, outputs aggregated. -/
def stepResult (ad : Adapter) (env : Env) (diskb : Bool) (basewd : Option FPath)
    (fld : String) (orig : InputStore) (vs : List Value) (i : Nat)
    (res : Option IResult) : IResult :=
  let r := ad.runFn (stepInputs env diskb basewd fld orig vs i)
    (stepCwd diskb basewd fld i)
  let res1 := (res.getD ⟨RT.rlist [], []⟩).insertRuntime i r.runtime
  { res1 with outputs := addOutputs res1.outputs i r.outputs }

/-- Concrete disk-based node iterating field `f` whose value is a scalar
(coerced to a 1-element sequence for iteration). -/
def nodeIterScalar : NodeWrapper where
  name := "NODE123"
  id := "NODE123"
  disk_based := true
  overwrite := false
  output_directory_base := some ["wf"]
  iterfield := ["f"]
  inputs := [("f", Value.atom "x")]
  nattrs := []
  result := none

/-- The aggregated output store after the first `a` iterations of a run
whose adapter produces key set `ks` with per-iteration value `F k v`:
empty before the first iteration, and positionally accumulated lists in
input order afterwards. -/
def aggState (ks : List String) (F : String → Value → Value) (vs : List Value)
    (a : Nat) : List (String × Value) :=
  if a = 0 then []
  else ks.map (fun k => (k, Value.vlist ((vs.take a).map (F k))))

/-! Basic lemmas about the association-list, list and filesystem helpers. -/

theorem alGet_alSet_self {α : Type} (s : List (String × α)) (k : String) (v : α) :
    alGet (alSet s k v) k = some v := by
  induction s with
  | nil => simp [alGet, alSet]
  | cons e rest ih =>
    obtain ⟨k', w⟩ := e
    by_cases h : k = k'
    · simp [alSet, alGet, h]
    · simp [alSet, alGet, h, ih]

theorem alGet_alSet_ne {α : Type} (s : List (String × α)) (k k' : String) (v : α)
    (h : k' ≠ k) : alGet (alSet s k v) k' = alGet s k' := by
  induction s with
  | nil => simp [alGet, alSet, h]
  | cons e rest ih =>
    obtain ⟨k0, w⟩ := e
    by_cases hk : k = k0
    · subst hk
      simp [alSet, alGet, h]
    · by_cases hk' : k' = k0
      · simp [alSet, alGet, hk, hk']
      · simp [alSet, alGet, hk, hk', ih]

theorem alSet_alSet_self {α : Type} (s : List (String × α)) (k : String) (v w : α) :
    alSet (alSet s k w) k v = alSet s k v := by
  induction s with
  | nil => simp [alSet]
  | cons e rest ih =>
    obtain ⟨k0, w0⟩ := e
    by_cases hk : k = k0
    · simp [alSet, hk]
    · simp [alSet, hk, ih]

theorem alGet_alSet_isSome {α : Type} (s : List (String × α)) (k k' : String) (v : α)
    (h : (alGet s k').isSome = true) : (alGet (alSet s k v) k').isSome = true := by
  by_cases hk : k' = k
  · subst hk; simp [alGet_alSet_self]
  · rw [alGet_alSet_ne s k k' v hk]; exact h

theorem alGet_append_of_none {α : Type} (s t : List (String × α)) (k : String)
    (h : alGet s k = none) : alGet (s ++ t) k = alGet t k := by
  induction s with
  | nil => simp
  | cons e rest ih =>
    obtain ⟨k0, w0⟩ := e
    by_cases hk : k = k0
    · simp [alGet, hk] at h
    · simp [alGet, hk] at h ⊢
      exact ih h

theorem alSet_append_of_none {α : Type} (s t : List (String × α)) (k : String) (v : α)
    (h : alGet s k = none) : alSet (s ++ t) k v = s ++ alSet t k v := by
  induction s with
  | nil => simp
  | cons e rest ih =>
    obtain ⟨k0, w0⟩ := e
    by_cases hk : k = k0
    · simp [alGet, hk] at h
    · simp [alGet, hk] at h
      simp [alSet, hk, ih h]

theorem alGet_nil {α : Type} (k : String) : alGet ([] : List (String × α)) k = none := rfl

theorem pyInsert_at_length {α : Type} (l : List α) (v : α) :
    pyInsert l l.length v = l ++ [v] := by
  simp [pyInsert]

theorem underDir_append (d r : FPath) : underDir d (d ++ r) = true := by
  induction d with
  | nil => simp [underDir]
  | cons c cs ih => simp [underDir, ih]

theorem fsExists_cleandir_under (fs : FS) (d : FPath) (x : String) :
    fsExists (cleandir fs d) (d ++ [x]) = false := by
  induction fs with
  | nil => simp [cleandir, fsExists]
  | cons e rest ih =>
    by_cases h : underDir d e.1
    · simpa [cleandir, fsExists, h] using ih
    · have hne : e.1 ≠ d ++ [x] := by
        intro hcontra
        rw [hcontra] at h
        simp [underDir_append] at h
      simp [cleandir, fsExists, h, hne]
      simpa [cleandir, fsExists] using ih

theorem fsExists_fsWrite_self (fs : FS) (p : FPath) (c : String) :
    fsExists (fsWrite fs p c) p = true := by
  simp [fsExists, fsWrite]

/-! Lemmas about `set_input` and the field-setting loop `setFields`. -/

theorem set_input_result (n : NodeWrapper) (p : String) (v : Value) :
    (n.set_input p v).result = n.result := by
  unfold NodeWrapper.set_input; split <;> rfl

theorem set_input_iterfield (n : NodeWrapper) (p : String) (v : Value) :
    (n.set_input p v).iterfield = n.iterfield := by
  unfold NodeWrapper.set_input; split <;> rfl

theorem set_input_disk_based (n : NodeWrapper) (p : String) (v : Value) :
    (n.set_input p v).disk_based = n.disk_based := by
  unfold NodeWrapper.set_input; split <;> rfl

theorem set_input_inputs_of_isSome (n : NodeWrapper) (p : String) (v : Value)
    (h : (alGet n.inputs p).isSome = true) :
    (n.set_input p v).inputs = alSet n.inputs p v := by
  unfold NodeWrapper.set_input
  rw [if_pos h]

theorem set_input_isSome_mono (n : NodeWrapper) (p : String) (v : Value) (g : String)
    (h : (alGet n.inputs g).isSome = true) :
    (alGet (n.set_input p v).inputs g).isSome = true := by
  unfold NodeWrapper.set_input
  split
  · exact alGet_alSet_isSome _ _ _ _ h
  · exact h

theorem set_input_inputs_get_ne (n : NodeWrapper) (p : String) (v : Value) (g : String)
    (h : g ≠ p) : alGet (n.set_input p v).inputs g = alGet n.inputs g := by
  unfold NodeWrapper.set_input
  split
  · exact alGet_alSet_ne _ _ _ _ h
  · rfl

theorem set_input_inputs_get_self (n : NodeWrapper) (p : String) (v : Value)
    (h : (alGet n.inputs p).isSome = true) :
    alGet (n.set_input p v).inputs p = some v := by
  rw [set_input_inputs_of_isSome n p v h]
  exact alGet_alSet_self _ _ _

theorem setFields_nil (rv : String → Value) (n : NodeWrapper) :
    setFields rv [] n = n := rfl

theorem setFields_cons (rv : String → Value) (f : String) (rest : List String)
    (n : NodeWrapper) :
    setFields rv (f :: rest) n = setFields rv rest (n.set_input f (rv f)) := rfl

theorem setFields_result (rv : String → Value) (fields : List String) :
    ∀ n : NodeWrapper, (setFields rv fields n).result = n.result := by
  induction fields with
  | nil => intro n; rfl
  | cons f rest ih =>
    intro n
    rw [setFields_cons, ih, set_input_result]

theorem setFields_iterfield (rv : String → Value) (fields : List String) :
    ∀ n : NodeWrapper, (setFields rv fields n).iterfield = n.iterfield := by
  induction fields with
  | nil => intro n; rfl
  | cons f rest ih =>
    intro n
    rw [setFields_cons, ih, set_input_iterfield]

theorem setFields_disk_based (rv : String → Value) (fields : List String) :
    ∀ n : NodeWrapper, (setFields rv fields n).disk_based = n.disk_based := by
  induction fields with
  | nil => intro n; rfl
  | cons f rest ih =>
    intro n
    rw [setFields_cons, ih, set_input_disk_based]

theorem setFields_isSome_mono (rv : String → Value) (fields : List String) :
    ∀ (n : NodeWrapper) (g : String), (alGet n.inputs g).isSome = true →
      (alGet (setFields rv fields n).inputs g).isSome = true := by
  induction fields with
  | nil => intro n g h; exact h
  | cons f rest ih =>
    intro n g h
    rw [setFields_cons]
    exact ih _ g (set_input_isSome_mono n f (rv f) g h)

theorem setFields_inputs_get_not_mem (rv : String → Value) (fields : List String) :
    ∀ (n : NodeWrapper) (f : String), f ∉ fields →
      alGet (setFields rv fields n).inputs f = alGet n.inputs f := by
  induction fields with
  | nil => intro n f _; rfl
  | cons g rest ih =>
    intro n f hf
    rw [setFields_cons, ih _ f (fun hm => hf (List.mem_cons_of_mem g hm)),
      set_input_inputs_get_ne n g (rv g) f (fun he => hf (he ▸ List.mem_cons_self g rest))]

theorem setFields_inputs_get_mem (rv : String → Value) (fields : List String) :
    ∀ (n : NodeWrapper) (f : String), f ∈ fields →
      (∀ g ∈ fields, (alGet n.inputs g).isSome = true) →
      alGet (setFields rv fields n).inputs f = some (rv f) := by
  induction fields with
  | nil => intro n f hf; exact absurd hf (List.not_mem_nil f)
  | cons g0 rest ih =>
    intro n f hf hall
    rw [setFields_cons]
    by_cases hr : f ∈ rest
    · exact ih _ f hr (fun g hg =>
        set_input_isSome_mono n g0 (rv g0) g (hall g (List.mem_cons_of_mem g0 hg)))
    · have hfg : f = g0 := by
        rcases List.mem_cons.mp hf with h | h
        · exact h
        · exact absurd h hr
      subst hfg
      rw [setFields_inputs_get_not_mem rv rest _ f hr]
      exact set_input_inputs_get_self n f (rv f) (hall f (List.mem_cons_self f rest))

/-! Claim theorems: construction, output access, cache-marker writing. -/

/-- C9: constructing a `NodeWrapper` without an execution interface raises
an error immediately, and constructing one with a `base_directory` while
`diskbased` is false raises an error immediately; in both cases no node is
created (the constructor returns only the error). -/
theorem init_config_errors (iterfield : List String) (diskbased : Bool)
    (base_directory : Option FPath) (overwrite : Bool) (name : Option String)
    (ad : Adapter) (p : FPath) :
    NodeWrapper.init none iterfield diskbased base_directory overwrite name =
      .error ⟨ErrKind.exceptionError, "Interface must be provided"⟩ ∧
    NodeWrapper.init (some ad) iterfield false (some p) overwrite name =
      .error ⟨ErrKind.valueError,
        "Setting base_directory requires a disk based interface"⟩ :=
  ⟨rfl, rfl⟩

/-- C10: for every parameter name, `get_output` returns `None` whenever the
node has not yet produced a result, regardless of whether the parameter is a
declared output or exists on the node at all. -/
theorem get_output_none_of_no_result (n : NodeWrapper) (parameter : String)
    (h : n.result = none) : n.get_output parameter = .ok none := by
  unfold NodeWrapper.get_output
  rw [h]

/-- Witness for C10 at a concrete node and an undeclared parameter. -/
theorem get_output_none_of_no_result_witness :
    nodeDisk.get_output "undeclared" = .ok none :=
  get_output_none_of_no_result nodeDisk "undeclared" rfl

/-- C7: `_save_hashfile` never raises: it always returns a filesystem; when
the hashed inputs are not JSON-serializable it falls back to writing the
string form of the hashed inputs into the marker file, and when the marker
file cannot be opened for writing it leaves the filesystem unchanged (only
logging). -/
theorem save_hashfile_never_raises (env : Env) (fs : FS) (hashfile : FPath)
    (hashed : Value) :
    (∃ fs2, NodeWrapper._save_hashfile env fs hashfile hashed = .ok fs2) ∧
    (env.openable hashfile = true → env.serializable hashed = false →
      NodeWrapper._save_hashfile env fs hashfile hashed =
        .ok (fsWrite fs hashfile (env.strForm hashed))) ∧
    (env.openable hashfile = false →
      NodeWrapper._save_hashfile env fs hashfile hashed = .ok fs) := by
  unfold NodeWrapper._save_hashfile save_json
  by_cases ho : env.openable hashfile
  · by_cases hs : env.serializable hashed
    · simp [ho, hs]
    · simp [ho, hs]
  · simp [ho]

/-- Witness for C7: evaluated in the all-serializable environment, the
no-serialization environment (string-form fallback), and the unopenable
environment (filesystem unchanged). -/
theorem save_hashfile_never_raises_witness :
    (∃ fs2, NodeWrapper._save_hashfile envC [] ["wf", "h.json"] Value.vnone = .ok fs2) ∧
    NodeWrapper._save_hashfile envNoJson [] ["wf", "h.json"] Value.vnone =
      .ok (fsWrite [] ["wf", "h.json"] (envNoJson.strForm Value.vnone)) ∧
    NodeWrapper._save_hashfile envNoOpen [] ["wf", "h.json"] Value.vnone = .ok [] :=
  ⟨(save_hashfile_never_raises envC [] ["wf", "h.json"] Value.vnone).1,
   (save_hashfile_never_raises envNoJson [] ["wf", "h.json"] Value.vnone).2.1 rfl rfl,
   (save_hashfile_never_raises envNoOpen [] ["wf", "h.json"] Value.vnone).2.2 rfl⟩

/-! Evaluation lemmas for the non-iterating paths of `_run_interface` and
`run`. -/

theorem runInterface_noiter_exec_ok (ad : Adapter) (env : Env) (node : NodeWrapper)
    (st : PState) (c : FPath)
    (hiter : node.iterfield = [])
    (hrc : (ad.runFn node.inputs (some c)).runtime.returncode = 0) :
    NodeWrapper._run_interface ad env node st true (some c) =
      .ok ({ node with result := some ⟨RT.single (ad.runFn node.inputs (some c)).runtime,
                                       (ad.runFn node.inputs (some c)).outputs⟩ },
           { st with trace := st.trace ++ [node.inputs] }) := by
  simp [NodeWrapper._run_interface, runInterfaceCore, hiter, hrc]

theorem runInterface_noiter_exec_fail (ad : Adapter) (env : Env) (node : NodeWrapper)
    (st : PState) (c : FPath)
    (hiter : node.iterfield = [])
    (hrc : (ad.runFn node.inputs (some c)).runtime.returncode ≠ 0) :
    NodeWrapper._run_interface ad env node st true (some c) =
      .error (⟨ErrKind.runtimeError, (ad.runFn node.inputs (some c)).runtime.stderr⟩,
              { node with result := some ⟨RT.single (ad.runFn node.inputs (some c)).runtime,
                                          (ad.runFn node.inputs (some c)).outputs⟩ },
              { st with cwd := c, trace := st.trace ++ [node.inputs] }) := by
  simp [NodeWrapper._run_interface, runInterfaceCore, hiter, hrc]

theorem runInterface_noiter_skip (ad : Adapter) (env : Env) (node : NodeWrapper)
    (st : PState) (c : FPath)
    (hiter : node.iterfield = []) :
    NodeWrapper._run_interface ad env node st false (some c) =
      .ok ({ node with result := some ⟨RT.rtNone, ad.aggregate node.inputs⟩ }, st) := by
  simp [NodeWrapper._run_interface, runInterfaceCore, hiter]

theorem output_directory_eq (env : Env) (node : NodeWrapper) (st : PState) :
    NodeWrapper._output_directory env node st =
      ({ node with
           output_directory_base :=
             some (node.output_directory_base.getD (env.mkdtemp st.tmpCount)) },
       { st with
           tmpCount :=
             if node.output_directory_base.isSome then st.tmpCount
             else st.tmpCount + 1 },
       resolvedOutdir env node st) := by
  obtain ⟨nm, idv, db, ov, ob, itf, inp, na, res⟩ := node
  cases ob <;> simp [NodeWrapper._output_directory, resolvedOutdir]

theorem run_disk_exec_ok_eq (ad : Adapter) (env : Env) (node : NodeWrapper)
    (st : PState)
    (hdisk : node.disk_based = true)
    (hiter : node.iterfield = [])
    (hcache : node.overwrite = true ∨ fsExists st.fs (hashfileFPath env node st) = false)
    (hrc : (ad.runFn node.inputs
      (some (resolvedOutdir env node st))).runtime.returncode = 0)
    (hopen : env.openable (hashfileFPath env node st) = true)
    (hser : env.serializable (env.hashedInputs node.inputs) = true) :
    NodeWrapper.run ad env node st false =
      .ok ({ node with
               output_directory_base :=
                 some (node.output_directory_base.getD (env.mkdtemp st.tmpCount)),
               result := some (execResult ad (resolvedOutdir env node st) node.inputs) },
           { st with
               tmpCount :=
                 if node.output_directory_base.isSome then st.tmpCount
                 else st.tmpCount + 1,
               fs := fsWrite (cleandir st.fs (resolvedOutdir env node st))
                 (hashfileFPath env node st)
                 (env.jsonForm (env.hashedInputs node.inputs)),
               trace := st.trace ++ [node.inputs] }) := by
  obtain ⟨nm, idv, db, ov, ob, itf, inp, na, res⟩ := node
  obtain ⟨fs0, cw0, tc0, tr0⟩ := st
  simp only at hdisk hiter
  subst hdisk hiter
  simp [resolvedOutdir, hashfileFPath, Option.getD] at hrc hopen hser hcache
  rcases hcache with hov | hfs
  · subst hov
    cases ob <;>
      simp [NodeWrapper.run, NodeWrapper._output_directory,
        NodeWrapper._run_interface, runInterfaceCore, NodeWrapper._save_hashfile,
        save_json, resultReturncode, execResult, resolvedOutdir, hashfileFPath,
        Option.getD, hrc, hopen, hser]
  · cases ob <;>
      simp [NodeWrapper.run, NodeWrapper._output_directory,
        NodeWrapper._run_interface, runInterfaceCore, NodeWrapper._save_hashfile,
        save_json, resultReturncode, execResult, resolvedOutdir, hashfileFPath,
        Option.getD, hrc, hopen, hser, hfs]

theorem run_disk_exec_fail_eq (ad : Adapter) (env : Env) (node : NodeWrapper)
    (st : PState)
    (hdisk : node.disk_based = true)
    (hiter : node.iterfield = [])
    (hcache : node.overwrite = true ∨ fsExists st.fs (hashfileFPath env node st) = false)
    (hrc : (ad.runFn node.inputs
      (some (resolvedOutdir env node st))).runtime.returncode ≠ 0) :
    NodeWrapper.run ad env node st false =
      .error (⟨ErrKind.runtimeError,
                (ad.runFn node.inputs
                  (some (resolvedOutdir env node st))).runtime.stderr⟩,
              { node with
                  output_directory_base :=
                    some (node.output_directory_base.getD (env.mkdtemp st.tmpCount)),
                  result := some (execResult ad (resolvedOutdir env node st) node.inputs) },
              { st with
                  tmpCount :=
                    if node.output_directory_base.isSome then st.tmpCount
                    else st.tmpCount + 1,
                  fs := cleandir st.fs (resolvedOutdir env node st),
                  cwd := resolvedOutdir env node st,
                  trace := st.trace ++ [node.inputs] }) := by
  obtain ⟨nm, idv, db, ov, ob, itf, inp, na, res⟩ := node
  obtain ⟨fs0, cw0, tc0, tr0⟩ := st
  simp only at hdisk hiter
  subst hdisk hiter
  simp [resolvedOutdir, hashfileFPath, Option.getD] at hrc hcache
  rcases hcache with hov | hfs
  · subst hov
    cases ob <;>
      simp [NodeWrapper.run, NodeWrapper._output_directory,
        NodeWrapper._run_interface, runInterfaceCore, NodeWrapper._save_hashfile,
        save_json, resultReturncode, execResult, resolvedOutdir, hashfileFPath,
        Option.getD, hrc]
  · cases ob <;>
      simp [NodeWrapper.run, NodeWrapper._output_directory,
        NodeWrapper._run_interface, runInterfaceCore, NodeWrapper._save_hashfile,
        save_json, resultReturncode, execResult, resolvedOutdir, hashfileFPath,
        Option.getD, hrc, hfs]

theorem run_disk_skip_eq (ad : Adapter) (env : Env) (node : NodeWrapper)
    (st : PState)
    (hdisk : node.disk_based = true)
    (hiter : node.iterfield = [])
    (hov : node.overwrite = false)
    (hfs : fsExists st.fs (hashfileFPath env node st) = true) :
    NodeWrapper.run ad env node st false =
      .ok ({ node with
               output_directory_base :=
                 some (node.output_directory_base.getD (env.mkdtemp st.tmpCount)),
               result := some ⟨RT.rtNone, ad.aggregate node.inputs⟩ },
           { st with
               tmpCount :=
                 if node.output_directory_base.isSome then st.tmpCount
                 else st.tmpCount + 1 }) := by
  obtain ⟨nm, idv, db, ov, ob, itf, inp, na, res⟩ := node
  obtain ⟨fs0, cw0, tc0, tr0⟩ := st
  simp only at hdisk hiter hov
  subst hdisk hiter hov
  simp [resolvedOutdir, hashfileFPath, Option.getD] at hfs
  cases ob <;>
    simp [NodeWrapper.run, NodeWrapper._output_directory,
      NodeWrapper._run_interface, runInterfaceCore, resolvedOutdir,
      hashfileFPath, Option.getD, hfs]

theorem run_disk_updatehash_eq (ad : Adapter) (env : Env) (node : NodeWrapper)
    (st : PState)
    (hdisk : node.disk_based = true)
    (hiter : node.iterfield = [])
    (hopen : env.openable (hashfileFPath env node st) = true)
    (hser : env.serializable (env.hashedInputs node.inputs) = true) :
    NodeWrapper.run ad env node st true =
      .ok ({ node with
               output_directory_base :=
                 some (node.output_directory_base.getD (env.mkdtemp st.tmpCount)),
               result := some ⟨RT.rtNone, ad.aggregate node.inputs⟩ },
           { st with
               tmpCount :=
                 if node.output_directory_base.isSome then st.tmpCount
                 else st.tmpCount + 1,
               fs := fsWrite st.fs (hashfileFPath env node st)
                 (env.jsonForm (env.hashedInputs node.inputs)) }) := by
  obtain ⟨nm, idv, db, ov, ob, itf, inp, na, res⟩ := node
  obtain ⟨fs0, cw0, tc0, tr0⟩ := st
  simp only at hdisk hiter
  subst hdisk hiter
  simp [resolvedOutdir, hashfileFPath, Option.getD] at hopen hser
  cases ob <;>
    simp [NodeWrapper.run, NodeWrapper._output_directory,
      NodeWrapper._run_interface, runInterfaceCore, NodeWrapper._save_hashfile,
      save_json, resolvedOutdir, hashfileFPath, Option.getD, hopen, hser]

/-- C8: in update-hash mode on a disk-based node, the cache marker for the
current input hash is persisted, the adapter's `run` is never invoked (the
invocation trace is unchanged), and the call terminates successfully with
outputs collected via `aggregate_outputs`. -/
theorem run_updatehash_no_execution (ad : Adapter) (env : Env) (node : NodeWrapper)
    (st : PState)
    (hdisk : node.disk_based = true)
    (hiter : node.iterfield = [])
    (hopen : env.openable (hashfileFPath env node st) = true)
    (hser : env.serializable (env.hashedInputs node.inputs) = true) :
    ∃ n2 s2, NodeWrapper.run ad env node st true = .ok (n2, s2) ∧
      fsExists s2.fs (hashfileFPath env node st) = true ∧
      s2.trace = st.trace ∧
      n2.result = some ⟨RT.rtNone, ad.aggregate node.inputs⟩ := by
  refine ⟨_, _, run_disk_updatehash_eq ad env node st hdisk hiter hopen hser,
    ?_, rfl, rfl⟩
  exact fsExists_fsWrite_self _ _ _

/-- Witness for C8 at a concrete disk-based node. -/
theorem run_updatehash_no_execution_witness :
    ∃ n2 s2, NodeWrapper.run adOK envC nodeDisk st0 true = .ok (n2, s2) ∧
      fsExists s2.fs (hashfileFPath envC nodeDisk st0) = true ∧
      s2.trace = st0.trace ∧
      n2.result = some ⟨RT.rtNone, adOK.aggregate nodeDisk.inputs⟩ :=
  run_updatehash_no_execution adOK envC nodeDisk st0 rfl rfl rfl rfl

/-- C1: on a disk-based node with `overwrite = False` and no pre-existing
marker, running twice with unchanged inputs invokes the adapter exactly once
(the trace grows only during the first run), the second run finds the cache
marker and takes the skip path, and its outputs — collected via
`aggregate_outputs` — are identical to the first run's outputs. -/
theorem run_twice_executes_adapter_once (ad : Adapter) (env : Env)
    (node : NodeWrapper) (st : PState)
    (hdisk : node.disk_based = true)
    (hiter : node.iterfield = [])
    (hov : node.overwrite = false)
    (hfresh : fsExists st.fs (hashfileFPath env node st) = false)
    (hrc : (ad.runFn node.inputs
      (some (resolvedOutdir env node st))).runtime.returncode = 0)
    (hopen : env.openable (hashfileFPath env node st) = true)
    (hser : env.serializable (env.hashedInputs node.inputs) = true)
    (hagg : ad.aggregate node.inputs =
      (ad.runFn node.inputs (some (resolvedOutdir env node st))).outputs) :
    ∃ n1 s1 n2 s2,
      NodeWrapper.run ad env node st false = .ok (n1, s1) ∧
      NodeWrapper.run ad env n1 s1 false = .ok (n2, s2) ∧
      s1.trace = st.trace ++ [node.inputs] ∧
      s2.trace = s1.trace ∧
      fsExists s1.fs (hashfileFPath env node st) = true ∧
      n1.result = some (execResult ad (resolvedOutdir env node st) node.inputs) ∧
      n2.result = some ⟨RT.rtNone,
        (ad.runFn node.inputs (some (resolvedOutdir env node st))).outputs⟩ ∧
      n2.result.map IResult.outputs = n1.result.map IResult.outputs := by
  have h1 := run_disk_exec_ok_eq ad env node st hdisk hiter (Or.inr hfresh)
    hrc hopen hser
  refine ⟨_, _, _, _, h1,
    run_disk_skip_eq ad env _ _ hdisk hiter hov ?hfs, rfl, rfl, ?hex, rfl,
    ?hres2, ?houts⟩
  case hfs =>
    simpa [hashfileFPath, resolvedOutdir] using
      fsExists_fsWrite_self (cleandir st.fs (resolvedOutdir env node st))
        (hashfileFPath env node st) (env.jsonForm (env.hashedInputs node.inputs))
  case hex =>
    exact fsExists_fsWrite_self _ _ _
  case hres2 =>
    show some (⟨RT.rtNone, ad.aggregate node.inputs⟩ : IResult) = _
    rw [hagg]
  case houts =>
    show some (ad.aggregate node.inputs) = _
    rw [hagg]
    rfl

/-- Witness for C1 at a concrete disk-based node with a succeeding
adapter. -/
theorem run_twice_executes_adapter_once_witness :
    ∃ n1 s1 n2 s2,
      NodeWrapper.run adOK envC nodeDisk st0 false = .ok (n1, s1) ∧
      NodeWrapper.run adOK envC n1 s1 false = .ok (n2, s2) ∧
      s1.trace = st0.trace ++ [nodeDisk.inputs] ∧
      s2.trace = s1.trace ∧
      fsExists s1.fs (hashfileFPath envC nodeDisk st0) = true ∧
      n1.result = some (execResult adOK (resolvedOutdir envC nodeDisk st0) nodeDisk.inputs) ∧
      n2.result = some ⟨RT.rtNone,
        (adOK.runFn nodeDisk.inputs (some (resolvedOutdir envC nodeDisk st0))).outputs⟩ ∧
      n2.result.map IResult.outputs = n1.result.map IResult.outputs :=
  run_twice_executes_adapter_once adOK envC nodeDisk st0 rfl rfl rfl rfl rfl rfl rfl rfl

/-- C3 counterexample: at a concrete failing adapter invocation, the raised
fatal error's message is exactly the captured stderr "boom": it contains
neither the node's name nor the string form of the resolved inputs, so the
error does not carry the node name and inputs as the claim states. -/
theorem run_failure_error_counterexample :
    ∃ e, NodeWrapper.run adFail envC nodeDisk st0 false = .error e ∧
      e.1.kind = ErrKind.runtimeError ∧
      e.1.msg = "boom" ∧
      nodeDisk.name = "NODE123" ∧
      listHasSub e.1.msg.data nodeDisk.name.data = false ∧
      listHasSub e.1.msg.data (envC.showInputs nodeDisk.inputs).data = false := by
  refine ⟨_, rfl, rfl, rfl, rfl, ?_, ?_⟩ <;> decide

/-- C3 (amended): when an adapter invocation fails with nonzero return
status on the non-iterating execute path, `run` raises a fatal error
carrying exactly the captured stderr of the failed invocation (the code
path that would attach the node name and resolved inputs is pre-empted by
the earlier raise inside `_run_interface`), and no retry is attempted: the
adapter is invoked exactly once. -/
theorem run_failure_error_stderr_only (ad : Adapter) (env : Env)
    (node : NodeWrapper) (st : PState)
    (hdisk : node.disk_based = true)
    (hiter : node.iterfield = [])
    (hcache : node.overwrite = true ∨ fsExists st.fs (hashfileFPath env node st) = false)
    (hrc : (ad.runFn node.inputs
      (some (resolvedOutdir env node st))).runtime.returncode ≠ 0) :
    ∃ n' s', NodeWrapper.run ad env node st false =
      .error (⟨ErrKind.runtimeError,
        (ad.runFn node.inputs (some (resolvedOutdir env node st))).runtime.stderr⟩,
        n', s') ∧
      s'.trace = st.trace ++ [node.inputs] :=
  ⟨_, _, run_disk_exec_fail_eq ad env node st hdisk hiter hcache hrc, rfl⟩

/-- Witness for the amended C3 at a concrete failing adapter. -/
theorem run_failure_error_stderr_only_witness :
    ∃ n' s', NodeWrapper.run adFail envC nodeDisk st0 false =
      .error (⟨ErrKind.runtimeError,
        (adFail.runFn nodeDisk.inputs
          (some (resolvedOutdir envC nodeDisk st0))).runtime.stderr⟩, n', s') ∧
      s'.trace = st0.trace ++ [nodeDisk.inputs] :=
  run_failure_error_stderr_only adFail envC nodeDisk st0 rfl rfl (Or.inr rfl)
    (by decide)

/-- C5 is violated by the code: at a concrete failing adapter invocation,
`_run_interface` changed the working directory to the node's output
directory and the raise escapes `run` without restoring the previous
working directory (the source has no try/finally), leaving the process in
the node's directory. -/
theorem run_failure_cwd_not_restored :
    ∃ e n' s', NodeWrapper.run adFail envC nodeDisk st0 false = .error (e, n', s') ∧
      st0.cwd = ["home"] ∧
      s'.cwd = ["wf", "NODE123"] ∧
      s'.cwd ≠ st0.cwd := by
  refine ⟨_, _, _, rfl, rfl, rfl, by decide⟩

/-! Evaluation lemmas for single-iterfield iteration steps. -/

theorem iterStep_single_exec_ok (ad : Adapter) (env : Env) (diskb : Bool)
    (basewd : Option FPath) (fld : String) (itervals : String → List Value)
    (orig : InputStore) (vs : List Value) (i : Nat) (node : NodeWrapper)
    (st : PState)
    (hiv : itervals fld = vs)
    (hpres : (alGet orig fld).isSome = true)
    (hinp : node.inputs = orig ∨ ∃ w, node.inputs = alSet orig fld w)
    (hrc : rcAt ad env diskb basewd fld orig vs i = 0) :
    iterStep ad env true diskb [fld] fld itervals basewd i node st =
      .ok ({ node with
               inputs := stepInputs env diskb basewd fld orig vs i,
               result := some (stepResult ad env diskb basewd fld orig vs i
                 node.result) },
           { st with
               cwd := if diskb then subdirFPath basewd fld i else st.cwd,
               trace := st.trace ++ [stepInputs env diskb basewd fld orig vs i] }) := by
  have hisSome : (alGet node.inputs fld).isSome = true := by
    rcases hinp with h | ⟨w, h⟩
    · rw [h]; exact hpres
    · rw [h]; simp [alGet_alSet_self]
  have hALSET : alSet node.inputs fld (stagedValAt env diskb basewd fld vs i) =
      stepInputs env diskb basewd fld orig vs i := by
    rcases hinp with h | ⟨w, h⟩
    · rw [h]; rfl
    · rw [h, alSet_alSet_self]; rfl
  obtain ⟨nm, idv, db, ov, ob, itf, inp, na, res⟩ := node
  obtain ⟨fs0, cw0, tc0, tr0⟩ := st
  simp only at hisSome hALSET
  simp only [rcAt] at hrc
  unfold iterStep stepResult
  simp only [setFields, List.foldl, NodeWrapper.set_input, hisSome, if_true]
  simp only [stagedValAt, stepInputs, stepCwd] at hALSET hrc ⊢
  cases diskb
  · simp at hALSET hrc
    simp [hiv, hALSET, hrc]
  · simp at hALSET hrc
    simp [hiv, hALSET, hrc]

theorem iterStep_single_exec_fail (ad : Adapter) (env : Env) (diskb : Bool)
    (basewd : Option FPath) (fld : String) (itervals : String → List Value)
    (orig : InputStore) (vs : List Value) (i : Nat) (node : NodeWrapper)
    (st : PState)
    (hiv : itervals fld = vs)
    (hpres : (alGet orig fld).isSome = true)
    (hinp : node.inputs = orig ∨ ∃ w, node.inputs = alSet orig fld w)
    (hrc : rcAt ad env diskb basewd fld orig vs i ≠ 0) :
    iterStep ad env true diskb [fld] fld itervals basewd i node st =
      .error (⟨ErrKind.runtimeError, stderrAt ad env diskb basewd fld orig vs i⟩,
              { node with inputs := stepInputs env diskb basewd fld orig vs i },
              { st with
                  cwd := if diskb then subdirFPath basewd fld i else st.cwd,
                  trace := st.trace ++ [stepInputs env diskb basewd fld orig vs i] }) := by
  have hisSome : (alGet node.inputs fld).isSome = true := by
    rcases hinp with h | ⟨w, h⟩
    · rw [h]; exact hpres
    · rw [h]; simp [alGet_alSet_self]
  have hALSET : alSet node.inputs fld (stagedValAt env diskb basewd fld vs i) =
      stepInputs env diskb basewd fld orig vs i := by
    rcases hinp with h | ⟨w, h⟩
    · rw [h]; rfl
    · rw [h, alSet_alSet_self]; rfl
  obtain ⟨nm, idv, db, ov, ob, itf, inp, na, res⟩ := node
  obtain ⟨fs0, cw0, tc0, tr0⟩ := st
  simp only at hisSome hALSET
  simp only [rcAt] at hrc
  unfold iterStep
  simp only [setFields, List.foldl, NodeWrapper.set_input, hisSome, if_true]
  simp only [stagedValAt, stepInputs, stepCwd, stderrAt] at hALSET hrc ⊢
  cases diskb
  · simp at hALSET hrc
    simp [hiv, hALSET, hrc]
  · simp at hALSET hrc
    simp [hiv, hALSET, hrc]

theorem iterLoop_append (ad : Adapter) (env : Env) (execute diskb : Bool)
    (fields : List String) (fld0 : String) (itervals : String → List Value)
    (basewd : Option FPath) :
    ∀ (as bs : List Nat) (node : NodeWrapper) (st : PState),
      iterLoop ad env execute diskb fields fld0 itervals basewd (as ++ bs) node st =
        (match iterLoop ad env execute diskb fields fld0 itervals basewd as node st with
         | .error e => .error e
         | .ok (n, s) => iterLoop ad env execute diskb fields fld0 itervals basewd bs n s) := by
  intro as
  induction as with
  | nil => intro bs node st; rfl
  | cons i rest ih =>
    intro bs node st
    simp only [List.cons_append, iterLoop]
    cases iterStep ad env execute diskb fields fld0 itervals basewd i node st with
    | error e => rfl
    | ok p =>
      obtain ⟨n, s⟩ := p
      exact ih bs n s

theorem iterLoop_single_exec_ok_prefix (ad : Adapter) (env : Env) (diskb : Bool)
    (basewd : Option FPath) (fld : String) (itervals : String → List Value)
    (orig : InputStore) (vs : List Value)
    (hiv : itervals fld = vs)
    (hpres : (alGet orig fld).isSome = true) :
    ∀ (b a : Nat) (node : NodeWrapper) (st : PState),
      (∀ j, a ≤ j → j < a + b → rcAt ad env diskb basewd fld orig vs j = 0) →
      (node.inputs = orig ∨ ∃ w, node.inputs = alSet orig fld w) →
      ∃ n' s',
        iterLoop ad env true diskb [fld] fld itervals basewd (List.range' a b)
          node st = .ok (n', s') ∧
        s'.trace = st.trace ++
          (List.range' a b).map (stepInputs env diskb basewd fld orig vs) ∧
        s'.fs = st.fs ∧
        (n'.inputs = orig ∨ ∃ w, n'.inputs = alSet orig fld w) := by
  intro b
  induction b with
  | zero =>
    intro a node st _ hinp
    exact ⟨node, st, rfl, by simp, rfl, hinp⟩
  | succ b ih =>
    intro a node st hrc hinp
    have hstep := iterStep_single_exec_ok ad env diskb basewd fld itervals orig
      vs a node st hiv hpres hinp (hrc a (Nat.le_refl a) (by omega))
    obtain ⟨n', s', hloop, htr, hfs, hinp'⟩ :=
      ih (a + 1)
        ({ node with
             inputs := stepInputs env diskb basewd fld orig vs a,
             result := some (stepResult ad env diskb basewd fld orig vs a
               node.result) })
        ({ st with
             cwd := if diskb then subdirFPath basewd fld a else st.cwd,
             trace := st.trace ++ [stepInputs env diskb basewd fld orig vs a] })
        (fun j h1 h2 => hrc j (by omega) (by omega))
        (Or.inr ⟨_, rfl⟩)
    refine ⟨n', s', ?_, ?_, hfs, hinp'⟩
    · rw [List.range'_succ]
      simp only [iterLoop, hstep]
      exact hloop
    · rw [htr, List.range'_succ]
      simp

theorem iterLoop_single_exec_fail_at (ad : Adapter) (env : Env) (diskb : Bool)
    (basewd : Option FPath) (fld : String) (itervals : String → List Value)
    (orig : InputStore) (vs : List Value)
    (hiv : itervals fld = vs)
    (hpres : (alGet orig fld).isSome = true)
    (n k : Nat) (node : NodeWrapper) (st : PState)
    (hk : k < n)
    (hpre : ∀ j, j < k → rcAt ad env diskb basewd fld orig vs j = 0)
    (hfail : rcAt ad env diskb basewd fld orig vs k ≠ 0)
    (hinp : node.inputs = orig ∨ ∃ w, node.inputs = alSet orig fld w) :
    ∃ nE sE,
      iterLoop ad env true diskb [fld] fld itervals basewd (List.range n) node st =
        .error (⟨ErrKind.runtimeError,
          stderrAt ad env diskb basewd fld orig vs k⟩, nE, sE) ∧
      sE.trace = st.trace ++
        (List.range (k + 1)).map (stepInputs env diskb basewd fld orig vs) ∧
      sE.fs = st.fs := by
  have h2 : n - k = (n - k - 1) + 1 := by omega
  have hsplit : List.range n =
      List.range' 0 k ++ (k :: List.range' (k + 1) (n - k - 1)) := by
    rw [List.range_eq_range']
    have := List.range'_append 0 k (n - k) 1
    simp only [Nat.mul_one, Nat.zero_add, Nat.one_mul] at this
    rw [show n - k + k = n by omega] at this
    rw [← this, h2, List.range'_succ]
    simp
  obtain ⟨n1, s1, hloop1, htr1, hfs1, hinp1⟩ :=
    iterLoop_single_exec_ok_prefix ad env diskb basewd fld itervals orig vs hiv
      hpres k 0 node st (fun j h1 hj => hpre j (by omega)) hinp
  have hstep := iterStep_single_exec_fail ad env diskb basewd fld itervals orig
    vs k n1 s1 hiv hpres hinp1 hfail
  rw [hsplit, iterLoop_append, hloop1]
  simp only [iterLoop, hstep]
  refine ⟨_, _, rfl, ?_, ?_⟩
  · show s1.trace ++ [stepInputs env diskb basewd fld orig vs k] = _
    rw [htr1]
    simp [List.range_succ, List.range_eq_range']
  · exact hfs1

theorem runInterface_iter_exec_fail (ad : Adapter) (env : Env)
    (node : NodeWrapper) (st : PState) (c : FPath) (fld : String)
    (vs : List Value) (k : Nat)
    (hdb : node.disk_based = true)
    (hiter : node.iterfield = [fld])
    (hget : alGet node.inputs fld = some (Value.vlist vs))
    (hk : k < vs.length)
    (hpre : ∀ j, j < k →
      rcAt ad env true (some c) fld node.inputs vs j = 0)
    (hfail : rcAt ad env true (some c) fld node.inputs vs k ≠ 0) :
    ∃ nE sE,
      NodeWrapper._run_interface ad env node st true (some c) =
        .error (⟨ErrKind.runtimeError,
          stderrAt ad env true (some c) fld node.inputs vs k⟩, nE, sE) ∧
      sE.trace = st.trace ++ (List.range (k + 1)).map
        (stepInputs env true (some c) fld node.inputs vs) ∧
      sE.fs = st.fs := by
  obtain ⟨nm, idv, db, ov, ob, itf, inp, na, res⟩ := node
  simp only at hdb hiter hget hpre hfail
  subst hdb hiter
  have hiv : (fun f => coerceList (bget inp f)) fld = vs := by
    simp [coerceList, bget, hget]
  have hpres : (alGet inp fld).isSome = true := by simp [hget]
  obtain ⟨nE, sE, hloop, htr, hfs⟩ :=
    iterLoop_single_exec_fail_at ad env true (some c) fld
      (fun f => coerceList (bget inp f)) inp vs hiv hpres vs.length k
      ⟨nm, idv, true, ov, ob, [fld], inp, na, some ⟨RT.rlist [], []⟩⟩
      { st with cwd := c } hk hpre hfail (Or.inl rfl)
  refine ⟨nE, sE, ?_, htr, hfs⟩
  unfold NodeWrapper._run_interface runInterfaceCore
  simp only [hiv]
  rw [hloop]

theorem run_disk_exec_propagates_error (ad : Adapter) (env : Env)
    (node : NodeWrapper) (st : PState) (e : Fail) (nE : NodeWrapper) (sE : PState)
    (hdisk : node.disk_based = true)
    (hcache : node.overwrite = true ∨ fsExists st.fs (hashfileFPath env node st) = false)
    (hri : NodeWrapper._run_interface ad env
      { node with
          output_directory_base :=
            some (node.output_directory_base.getD (env.mkdtemp st.tmpCount)) }
      { st with
          tmpCount :=
            if node.output_directory_base.isSome then st.tmpCount
            else st.tmpCount + 1,
          fs := cleandir st.fs (resolvedOutdir env node st) }
      true (some (resolvedOutdir env node st)) = .error (e, nE, sE)) :
    NodeWrapper.run ad env node st false = .error (e, nE, sE) := by
  obtain ⟨nm, idv, db, ov, ob, itf, inp, na, res⟩ := node
  obtain ⟨fs0, cw0, tc0, tr0⟩ := st
  simp only at hdisk
  subst hdisk
  simp only [resolvedOutdir, hashfileFPath, Option.getD] at hcache hri
  rcases hcache with hov | hfs
  · subst hov
    cases ob <;>
      simp_all [NodeWrapper.run, NodeWrapper._output_directory, resolvedOutdir,
        Option.getD]
  · cases ob <;>
      simp_all [NodeWrapper.run, NodeWrapper._output_directory, resolvedOutdir,
        Option.getD]

/-- C2: whenever the adapter invocation at the first failing iteration index
`k` returns a nonzero status during an executing run, `run` raises a fatal
error (`RuntimeError` carrying that invocation's stderr), the adapter is not
invoked for any later iteration index (the trace grows by exactly the
invocations for indices `0..k`), and the cache marker for the current input
hash is absent from the resulting filesystem (it is persisted only after a
fully successful execution, and the stale copy was removed by the directory
cleanup). -/
theorem run_iter_fail_aborts_without_marker (ad : Adapter) (env : Env)
    (node : NodeWrapper) (st : PState) (fld : String) (vs : List Value) (k : Nat)
    (hdisk : node.disk_based = true)
    (hiter : node.iterfield = [fld])
    (hget : alGet node.inputs fld = some (Value.vlist vs))
    (hcache : node.overwrite = true ∨
      fsExists st.fs (hashfileFPath env node st) = false)
    (hk : k < vs.length)
    (hpre : ∀ j, j < k →
      rcAt ad env true (some (resolvedOutdir env node st)) fld node.inputs vs j = 0)
    (hfail : rcAt ad env true (some (resolvedOutdir env node st)) fld
      node.inputs vs k ≠ 0) :
    ∃ nE sE,
      NodeWrapper.run ad env node st false =
        .error (⟨ErrKind.runtimeError,
          stderrAt ad env true (some (resolvedOutdir env node st)) fld
            node.inputs vs k⟩, nE, sE) ∧
      sE.trace = st.trace ++ (List.range (k + 1)).map
        (stepInputs env true (some (resolvedOutdir env node st)) fld
          node.inputs vs) ∧
      fsExists sE.fs (hashfileFPath env node st) = false := by
  obtain ⟨nE, sE, hri, htr, hfs⟩ := runInterface_iter_exec_fail ad env
    { node with
        output_directory_base :=
          some (node.output_directory_base.getD (env.mkdtemp st.tmpCount)) }
    { st with
        tmpCount :=
          if node.output_directory_base.isSome then st.tmpCount
          else st.tmpCount + 1,
        fs := cleandir st.fs (resolvedOutdir env node st) }
    (resolvedOutdir env node st) fld vs k hdisk hiter hget hk hpre hfail
  refine ⟨nE, sE,
    run_disk_exec_propagates_error ad env node st _ nE sE hdisk hcache hri,
    htr, ?_⟩
  rw [hfs]
  show fsExists (cleandir st.fs (resolvedOutdir env node st))
    (resolvedOutdir env node st ++ ["_0x" ++ env.hashValue node.inputs ++ ".json"]) = false
  exact fsExists_cleandir_under st.fs (resolvedOutdir env node st) _

/-- Witness for C2: iterating `f` over `[a, b, c]` with an adapter that
fails exactly on value `b` (index 1): the run errors, exactly two
invocations happen (indices 0 and 1, never index 2), and no marker file is
written. -/
theorem run_iter_fail_aborts_without_marker_witness :
    ∃ nE sE,
      NodeWrapper.run adFailOnB envC nodeIter st0 false =
        .error (⟨ErrKind.runtimeError,
          stderrAt adFailOnB envC true (some (resolvedOutdir envC nodeIter st0))
            "f" nodeIter.inputs [Value.atom "a", Value.atom "b", Value.atom "c"]
            1⟩, nE, sE) ∧
      sE.trace = st0.trace ++ (List.range 2).map
        (stepInputs envC true (some (resolvedOutdir envC nodeIter st0)) "f"
          nodeIter.inputs [Value.atom "a", Value.atom "b", Value.atom "c"]) ∧
      fsExists sE.fs (hashfileFPath envC nodeIter st0) = false :=
  run_iter_fail_aborts_without_marker adFailOnB envC nodeIter st0 "f"
    [Value.atom "a", Value.atom "b", Value.atom "c"] 1 rfl rfl rfl (Or.inr rfl)
    (by decide) (by decide) (by decide)

/-! Input-presence preservation through the iteration loop, and the
restore-value computation. -/

theorem iterStep_ok_isSome_mono (ad : Adapter) (env : Env) (execute diskb : Bool)
    (fields : List String) (fld0 : String) (itervals : String → List Value)
    (basewd : Option FPath) (i : Nat) (node : NodeWrapper) (st : PState)
    (n' : NodeWrapper) (s' : PState)
    (h : iterStep ad env execute diskb fields fld0 itervals basewd i node st =
      .ok (n', s'))
    (g : String) (hg : (alGet node.inputs g).isSome = true) :
    (alGet n'.inputs g).isSome = true := by
  unfold iterStep at h
  cases diskb <;> cases execute
  · simp at h
    obtain ⟨h1, h2⟩ := h
    subst h1
    exact setFields_isSome_mono _ fields _ g hg
  · simp at h
    split at h
    · simp only [Except.ok.injEq, Prod.mk.injEq] at h
      obtain ⟨h1, h2⟩ := h
      subst h1
      exact setFields_isSome_mono _ fields _ g hg
    · exact Except.noConfusion h
  · simp at h
    obtain ⟨h1, h2⟩ := h
    subst h1
    exact setFields_isSome_mono _ fields _ g hg
  · simp at h
    split at h
    · simp only [Except.ok.injEq, Prod.mk.injEq] at h
      obtain ⟨h1, h2⟩ := h
      subst h1
      exact setFields_isSome_mono _ fields _ g hg
    · exact Except.noConfusion h

theorem iterLoop_ok_isSome_mono (ad : Adapter) (env : Env) (execute diskb : Bool)
    (fields : List String) (fld0 : String) (itervals : String → List Value)
    (basewd : Option FPath) :
    ∀ (is : List Nat) (node : NodeWrapper) (st : PState) (n' : NodeWrapper)
      (s' : PState),
      iterLoop ad env execute diskb fields fld0 itervals basewd is node st =
        .ok (n', s') →
      ∀ g, (alGet node.inputs g).isSome = true →
        (alGet n'.inputs g).isSome = true := by
  intro is
  induction is with
  | nil =>
    intro node st n' s' h g hg
    simp only [iterLoop, Except.ok.injEq, Prod.mk.injEq] at h
    obtain ⟨h1, h2⟩ := h
    subst h1
    exact hg
  | cons i rest ih =>
    intro node st n' s' h g hg
    simp only [iterLoop] at h
    cases hstep : iterStep ad env execute diskb fields fld0 itervals basewd i
        node st with
    | error e => rw [hstep] at h; exact absurd h (by simp)
    | ok p =>
      obtain ⟨n1, s1⟩ := p
      rw [hstep] at h
      exact ih n1 s1 n' s' h g
        (iterStep_ok_isSome_mono ad env execute diskb fields fld0 itervals
          basewd i node st n1 s1 hstep g hg)

theorem restore_value_eq (v : Value) :
    (if isNotList v then (coerceList v).getLastD Value.vnone
     else Value.vlist (coerceList v)) = v := by
  cases v <;> simp [isNotList, coerceList]

theorem runInterfaceCore_restores (ad : Adapter) (env : Env)
    (self : NodeWrapper) (st : PState) (ex : Bool) (oc : FPath)
    (cwdv : Option FPath) (n' : NodeWrapper) (s' : PState) (f : String)
    (hf : f ∈ self.iterfield)
    (hpres : ∀ g ∈ self.iterfield, (alGet self.inputs g).isSome = true)
    (hok : runInterfaceCore ad env self st ex oc cwdv = .ok (n', s')) :
    alGet n'.inputs f = alGet self.inputs f := by
  unfold runInterfaceCore at hok
  rcases hit : self.iterfield with _ | ⟨fld0, rest⟩
  · rw [hit] at hf
    exact absurd hf (List.not_mem_nil f)
  · simp only [hit] at hok
    split at hok
    · exact Except.noConfusion hok
    · rename_i self2 st2 heq
      simp only [Except.ok.injEq, Prod.mk.injEq] at hok
      obtain ⟨h1, h2⟩ := hok
      subst h1
      have hpres2 : ∀ g ∈ fld0 :: rest, (alGet self2.inputs g).isSome = true := by
        intro g hg
        exact iterLoop_ok_isSome_mono ad env ex self.disk_based (fld0 :: rest)
          fld0 _ cwdv _ _ _ self2 st2 heq g (hpres g (hit ▸ hg))
      rw [setFields_inputs_get_mem _ (fld0 :: rest) self2 f (hit ▸ hf) hpres2]
      obtain ⟨v0, hv0⟩ := Option.isSome_iff_exists.mp (hpres f hf)
      have hb : bget self.inputs f = v0 := by simp [bget, hv0]
      rw [hv0]
      simp only [hb]
      exact congrArg some (restore_value_eq v0)

theorem runInterface_restores_iterfields (ad : Adapter) (env : Env)
    (node : NodeWrapper) (st : PState) (ex : Bool) (cwd0 : Option FPath)
    (n' : NodeWrapper) (s' : PState) (f : String)
    (hf : f ∈ node.iterfield)
    (hpres : ∀ g ∈ node.iterfield, (alGet node.inputs g).isSome = true)
    (hok : NodeWrapper._run_interface ad env node st ex cwd0 = .ok (n', s')) :
    alGet n'.inputs f = alGet node.inputs f := by
  unfold NodeWrapper._run_interface at hok
  cases cwd0 with
  | some c =>
    exact runInterfaceCore_restores ad env node st ex st.cwd (some c) n' s' f
      hf hpres hok
  | none =>
    by_cases hdb : node.disk_based = true
    · rw [output_directory_eq] at hok
      simp only [hdb, if_true] at hok
      exact runInterfaceCore_restores ad env
        ⟨node.name, node.id, true, node.overwrite,
          some (node.output_directory_base.getD (env.mkdtemp st.tmpCount)),
          node.iterfield, node.inputs, node.nattrs, node.result⟩
        { st with
            tmpCount :=
              if node.output_directory_base.isSome then st.tmpCount
              else st.tmpCount + 1 }
        ex st.cwd (some (resolvedOutdir env node st)) n' s' f hf hpres hok
    · simp only [Bool.not_eq_true] at hdb
      simp only [hdb] at hok
      exact runInterfaceCore_restores ad env node st ex st.cwd none n' s' f
        hf hpres hok

/-- C6: after a run over iteration fields completes without an adapter
failure, every iteration field holds its original value again: a field that
was a scalar before the run (coerced to a 1-element sequence for iteration)
again holds that scalar, and a field that was already a sequence is restored
to its full original sequence. -/
theorem run_restores_iteration_fields (ad : Adapter) (env : Env)
    (node : NodeWrapper) (st : PState) (updatehash : Bool)
    (n' : NodeWrapper) (s' : PState) (f : String)
    (hf : f ∈ node.iterfield)
    (hpres : ∀ g ∈ node.iterfield, (alGet node.inputs g).isSome = true)
    (hok : NodeWrapper.run ad env node st updatehash = .ok (n', s')) :
    alGet n'.inputs f = alGet node.inputs f := by
  unfold NodeWrapper.run at hok
  by_cases hdb : node.disk_based = true
  · rw [output_directory_eq] at hok
    simp only [hdb, if_true] at hok
    split at hok
    · exact Except.noConfusion hok
    · split at hok
      · split at hok
        · exact Except.noConfusion hok
        · rename_i self2 st2 heq2
          split at hok
          · split at hok
            · exact Except.noConfusion hok
            · simp only [Except.ok.injEq, Prod.mk.injEq] at hok
              obtain ⟨h1, h2⟩ := hok
              subst h1
              exact runInterface_restores_iterfields ad env
                ⟨node.name, node.id, true, node.overwrite,
                  some (node.output_directory_base.getD (env.mkdtemp st.tmpCount)),
                  node.iterfield, node.inputs, node.nattrs, node.result⟩
                _ true _ _ st2 f hf hpres heq2
          · exact Except.noConfusion hok
      · exact runInterface_restores_iterfields ad env
          ⟨node.name, node.id, true, node.overwrite,
            some (node.output_directory_base.getD (env.mkdtemp st.tmpCount)),
            node.iterfield, node.inputs, node.nattrs, node.result⟩
          _ false _ n' s' f hf hpres hok
  · simp only [Bool.not_eq_true] at hdb
    simp only [hdb] at hok
    exact runInterface_restores_iterfields ad env node st true none n' s' f
      hf hpres hok

/-- Witness for C6: a sequence-valued iteration field is restored to the
full original sequence, and a scalar-valued iteration field again holds the
original scalar, after concrete successful runs. -/
theorem run_restores_iteration_fields_witness :
    (∃ n1 s1, NodeWrapper.run adOK envC nodeIter st0 false = .ok (n1, s1) ∧
      alGet n1.inputs "f" =
        some (Value.vlist [Value.atom "a", Value.atom "b", Value.atom "c"])) ∧
    (∃ n2 s2, NodeWrapper.run adOK envC nodeIterScalar st0 false = .ok (n2, s2) ∧
      alGet n2.inputs "f" = some (Value.atom "x")) :=
  ⟨⟨_, _, rfl,
    (run_restores_iteration_fields adOK envC nodeIter st0 false _ _ "f"
      (by decide) (by decide) rfl).trans rfl⟩,
   ⟨_, _, rfl,
    (run_restores_iteration_fields adOK envC nodeIterScalar st0 false _ _ "f"
      (by decide) (by decide) rfl).trans rfl⟩⟩

/-! Output-aggregation lemmas for the iteration loop (C4). -/

theorem alSet_of_none {α : Type} (s : List (String × α)) (k : String) (v : α)
    (h : alGet s k = none) : alSet s k v = s ++ [(k, v)] := by
  have := alSet_append_of_none s [] k v h
  simpa using this

theorem bget_alSet_self (s : InputStore) (k : String) (v : Value) :
    bget (alSet s k v) k = v := by
  simp [bget, alGet_alSet_self]

theorem alGet_map_self (G : String → Value) :
    ∀ (ks : List String) (k : String), k ∈ ks →
      alGet (ks.map (fun j => (j, G j))) k = some (G k) := by
  intro ks
  induction ks with
  | nil => intro k h; exact absurd h (List.not_mem_nil k)
  | cons k0 rest ih =>
    intro k h
    by_cases hk : k = k0
    · subst hk; simp [alGet]
    · rcases List.mem_cons.mp h with h' | h'
      · exact absurd h' hk
      · simp [alGet, hk, ih k h']

theorem addOutputs_fresh (i : Nat) (F : String → Value) :
    ∀ (ks : List String) (pre : List (String × Value)), ks.Nodup →
      (∀ k ∈ ks, alGet pre k = none) →
      addOutputs pre i (ks.map (fun k => (k, F k))) =
        pre ++ ks.map (fun k => (k, Value.vlist [F k])) := by
  intro ks
  induction ks with
  | nil => intro pre _ _; simp [addOutputs]
  | cons k0 rest ih =>
    intro pre hnd h
    have h0 : alGet pre k0 = none := h k0 (List.mem_cons_self _ _)
    have hagg : aggAdd pre i k0 (F k0) = pre ++ [(k0, Value.vlist [F k0])] := by
      simp [aggAdd, h0, alSet_of_none pre k0 _ h0]
    have hrest : ∀ k ∈ rest, alGet (pre ++ [(k0, Value.vlist [F k0])]) k = none := by
      intro k hk
      rw [alGet_append_of_none _ _ _ (h k (List.mem_cons_of_mem k0 hk))]
      have : k ≠ k0 := by
        intro he
        exact (List.nodup_cons.mp hnd).1 (he ▸ hk)
      simp [alGet, this]
    calc addOutputs pre i (((k0 :: rest).map (fun k => (k, F k))))
        = addOutputs (aggAdd pre i k0 (F k0)) i
            (rest.map (fun k => (k, F k))) := by
          simp [addOutputs]
      _ = pre ++ (k0, Value.vlist [F k0]) :: rest.map
            (fun k => (k, Value.vlist [F k])) := by
          rw [hagg, ih (pre ++ [(k0, Value.vlist [F k0])])
            (List.nodup_cons.mp hnd).2 hrest]
          simp

theorem addOutputs_extend (i : Nat) (F : String → Value) (g : String → List Value) :
    ∀ (ks : List String) (pre : List (String × Value)), ks.Nodup →
      (∀ k ∈ ks, alGet pre k = none) →
      (∀ k ∈ ks, (g k).length = i) →
      addOutputs (pre ++ ks.map (fun k => (k, Value.vlist (g k)))) i
          (ks.map (fun k => (k, F k))) =
        pre ++ ks.map (fun k => (k, Value.vlist (g k ++ [F k]))) := by
  intro ks
  induction ks with
  | nil => intro pre _ _ _; simp [addOutputs]
  | cons k0 rest ih =>
    intro pre hnd h hlen
    have h0 : alGet pre k0 = none := h k0 (List.mem_cons_self _ _)
    have hget : alGet (pre ++ (k0, Value.vlist (g k0)) ::
        rest.map (fun k => (k, Value.vlist (g k)))) k0 =
        some (Value.vlist (g k0)) := by
      rw [alGet_append_of_none _ _ _ h0]
      simp [alGet]
    have hagg : aggAdd (pre ++ (k0, Value.vlist (g k0)) ::
        rest.map (fun k => (k, Value.vlist (g k)))) i k0 (F k0) =
        pre ++ (k0, Value.vlist (g k0 ++ [F k0])) ::
          rest.map (fun k => (k, Value.vlist (g k))) := by
      simp only [aggAdd, hget]
      rw [alSet_append_of_none _ _ _ _ h0]
      have hpy : pyInsert (g k0) i (F k0) = g k0 ++ [F k0] := by
        rw [← hlen k0 (List.mem_cons_self _ _), pyInsert_at_length]
      simp [alSet, hpy]
    have hrest : ∀ k ∈ rest,
        alGet (pre ++ [(k0, Value.vlist (g k0 ++ [F k0]))]) k = none := by
      intro k hk
      rw [alGet_append_of_none _ _ _ (h k (List.mem_cons_of_mem k0 hk))]
      have : k ≠ k0 := by
        intro he
        exact (List.nodup_cons.mp hnd).1 (he ▸ hk)
      simp [alGet, this]
    calc addOutputs (pre ++ (k0 :: rest).map (fun k => (k, Value.vlist (g k)))) i
          ((k0 :: rest).map (fun k => (k, F k)))
        = addOutputs (aggAdd (pre ++ (k0, Value.vlist (g k0)) ::
              rest.map (fun k => (k, Value.vlist (g k)))) i k0 (F k0)) i
            (rest.map (fun k => (k, F k))) := by
          simp [addOutputs]
      _ = pre ++ (k0, Value.vlist (g k0 ++ [F k0])) ::
            rest.map (fun k => (k, Value.vlist (g k ++ [F k]))) := by
          rw [hagg]
          have := ih (pre ++ [(k0, Value.vlist (g k0 ++ [F k0]))])
            (List.nodup_cons.mp hnd).2 hrest
            (fun k hk => hlen k (List.mem_cons_of_mem k0 hk))
          simpa using this

theorem aggState_step (ks : List String) (F : String → Value → Value)
    (vs : List Value) (a : Nat) (hnd : ks.Nodup) (ha : a < vs.length) :
    addOutputs (aggState ks F vs a) a
        (ks.map (fun k => (k, F k (vs.getD a Value.vnone)))) =
      aggState ks F vs (a + 1) := by
  have hgetD : vs.getD a Value.vnone = vs.get ⟨a, ha⟩ := by
    simp [List.getD_eq_getElem?_getD, List.getElem?_eq_getElem ha]
  have htake : vs.take (a + 1) = vs.take a ++ [vs.get ⟨a, ha⟩] := by
    rw [List.take_succ]
    simp [List.getElem?_eq_getElem ha]
  by_cases h0 : a = 0
  · subst h0
    rw [show aggState ks F vs 0 = [] from rfl]
    rw [addOutputs_fresh 0 (fun k => F k (vs.getD 0 Value.vnone)) ks [] hnd
      (fun k _ => rfl)]
    simp only [aggState, Nat.zero_add, List.nil_append]
    simp [htake, hgetD]
    intro k _
    rw [List.getElem?_eq_getElem ha]
    rfl
  · have hlen : ∀ k ∈ ks, ((vs.take a).map (F k)).length = a := by
      intro k _
      simp [List.length_take]
      omega
    have hstore : aggState ks F vs a =
        [] ++ ks.map (fun k => (k, Value.vlist ((vs.take a).map (F k)))) := by
      simp [aggState, h0]
    rw [hstore, addOutputs_extend a (fun k => F k (vs.getD a Value.vnone))
      (fun k => (vs.take a).map (F k)) ks [] hnd (fun k _ => rfl) hlen]
    have h1 : a + 1 ≠ 0 := by omega
    simp only [aggState, h1, if_false, List.nil_append]
    rw [htake, hgetD]
    simp
    intro k _
    rw [List.take_succ, List.getElem?_map, List.getElem?_eq_getElem ha]
    simp

theorem iterLoop_single_exec_outputs (ad : Adapter) (env : Env) (fld : String)
    (itervals : String → List Value) (orig : InputStore) (vs : List Value)
    (ks : List String) (F : String → Value → Value)
    (hiv : itervals fld = vs)
    (hpres : (alGet orig fld).isSome = true)
    (hnd : ks.Nodup)
    (hrc : ∀ s w, (ad.runFn s w).runtime.returncode = 0)
    (hout : ∀ s w, (ad.runFn s w).outputs =
      ks.map (fun k => (k, F k (bget s fld)))) :
    ∀ (m a : Nat), a + m = vs.length →
      ∀ (node : NodeWrapper) (st : PState) (rs : List Runtime),
        node.result = some ⟨RT.rlist rs, aggState ks F vs a⟩ →
        (node.inputs = orig ∨ ∃ w, node.inputs = alSet orig fld w) →
        ∃ n' s' rs',
          iterLoop ad env true false [fld] fld itervals none (List.range' a m)
            node st = .ok (n', s') ∧
          n'.result = some ⟨RT.rlist rs', aggState ks F vs vs.length⟩ := by
  intro m
  induction m with
  | zero =>
    intro a ha node st rs hres hinp
    refine ⟨node, st, rs, rfl, ?_⟩
    rw [hres]
    have : a = vs.length := by omega
    rw [this]
  | succ m ih =>
    intro a ha node st rs hres hinp
    have hrcA : rcAt ad env false none fld orig vs a = 0 := hrc _ _
    have hstep := iterStep_single_exec_ok ad env false none fld itervals orig
      vs a node st hiv hpres hinp hrcA
    have hbg : bget (stepInputs env false none fld orig vs a) fld =
        vs.getD a Value.vnone := by
      simp [stepInputs, bget_alSet_self, stagedValAt]
    have hsr : stepResult ad env false none fld orig vs a node.result =
        ⟨RT.rlist (pyInsert rs a (ad.runFn
            (stepInputs env false none fld orig vs a)
            (stepCwd false none fld a)).runtime),
         aggState ks F vs (a + 1)⟩ := by
      unfold stepResult
      rw [hres]
      simp only [Option.getD_some, IResult.insertRuntime]
      rw [hout, hbg, aggState_step ks F vs a hnd (by omega)]
    obtain ⟨n', s', rs', hloop, hres'⟩ := ih (a + 1) (by omega)
      ({ node with
           inputs := stepInputs env false none fld orig vs a,
           result := some (stepResult ad env false none fld orig vs a
             node.result) })
      ({ st with
           cwd := if false then subdirFPath none fld a else st.cwd,
           trace := st.trace ++ [stepInputs env false none fld orig vs a] })
      (pyInsert rs a (ad.runFn (stepInputs env false none fld orig vs a)
        (stepCwd false none fld a)).runtime)
      (by simpa using hsr)
      (Or.inr ⟨_, rfl⟩)
    refine ⟨n', s', rs', ?_, hres'⟩
    rw [List.range'_succ]
    simp only [iterLoop, hstep]
    exact hloop

theorem run_nodisk_iter_outputs (ad : Adapter) (env : Env) (node : NodeWrapper)
    (st : PState) (fld : String) (vs : List Value) (ks : List String)
    (F : String → Value → Value)
    (hdisk : node.disk_based = false)
    (hiter : node.iterfield = [fld])
    (hget : alGet node.inputs fld = some (Value.vlist vs))
    (hnd : ks.Nodup)
    (hrc : ∀ s w, (ad.runFn s w).runtime.returncode = 0)
    (hout : ∀ s w, (ad.runFn s w).outputs =
      ks.map (fun k => (k, F k (bget s fld)))) :
    ∃ n' s' rs,
      NodeWrapper.run ad env node st false = .ok (n', s') ∧
      n'.result = some ⟨RT.rlist rs, aggState ks F vs vs.length⟩ := by
  obtain ⟨nm, idv, db, ov, ob, itf, inp, na, res⟩ := node
  simp only at hdisk hiter hget
  subst hdisk hiter
  have hiv : (fun f => coerceList (bget inp f)) fld = vs := by
    simp [coerceList, bget, hget]
  have hpres : (alGet inp fld).isSome = true := by simp [hget]
  obtain ⟨n2, s2, rs, hloop, hres⟩ :=
    iterLoop_single_exec_outputs ad env fld (fun f => coerceList (bget inp f))
      inp vs ks F hiv hpres hnd hrc hout vs.length 0 (by omega)
      ⟨nm, idv, false, ov, ob, [fld], inp, na, some ⟨RT.rlist [], []⟩⟩
      st [] (by simp [aggState]) (Or.inl rfl)
  refine ⟨setFields (fun f =>
      if isNotList (bget inp f) = true
      then (coerceList (bget inp f)).getLastD Value.vnone
      else Value.vlist (coerceList (bget inp f))) [fld] n2, s2, rs, ?_, ?_⟩
  · unfold NodeWrapper.run NodeWrapper._run_interface runInterfaceCore
    simp only [Bool.false_eq_true, if_false, hiv, List.range_eq_range']
    rw [hloop]
    rfl
  · rw [setFields_result, hres]

/-- C4: for a node iterating a field over `[a, b, c]`, when every
iteration's adapter invocation produces every output key (key set `ks`,
per-iteration value `F k`), each output key of the result holds exactly
`[F k a, F k b, F k c]` in input index order (a first occurrence creates
the sequence, later occurrences extend it at the current index, never
overwriting earlier positions), and each aggregated sequence's length
equals the number of iteration values. -/
theorem run_iter_aggregates_outputs_in_order (ad : Adapter) (env : Env)
    (node : NodeWrapper) (st : PState) (fld : String) (a b c : Value)
    (ks : List String) (F : String → Value → Value)
    (hdisk : node.disk_based = false)
    (hiter : node.iterfield = [fld])
    (hget : alGet node.inputs fld = some (Value.vlist [a, b, c]))
    (hnd : ks.Nodup)
    (hrc : ∀ s w, (ad.runFn s w).runtime.returncode = 0)
    (hout : ∀ s w, (ad.runFn s w).outputs =
      ks.map (fun k => (k, F k (bget s fld)))) :
    ∃ n' s' rs,
      NodeWrapper.run ad env node st false = .ok (n', s') ∧
      n'.result = some ⟨RT.rlist rs,
        ks.map (fun k => (k, Value.vlist [F k a, F k b, F k c]))⟩ ∧
      (∀ k ∈ ks,
        alGet (ks.map (fun j => (j, Value.vlist [F j a, F j b, F j c]))) k =
          some (Value.vlist [F k a, F k b, F k c])) ∧
      (∀ k, ([F k a, F k b, F k c] : List Value).length =
        ([a, b, c] : List Value).length) := by
  obtain ⟨n', s', rs, h1, h2⟩ := run_nodisk_iter_outputs ad env node st fld
    [a, b, c] ks F hdisk hiter hget hnd hrc hout
  refine ⟨n', s', rs, h1, ?_, ?_, fun k => rfl⟩
  · rw [h2]
    rfl
  · intro k hk
    exact alGet_map_self (fun j => Value.vlist [F j a, F j b, F j c]) ks k hk

/-- Witness for C4: a concrete non-disk-based node iterating `f` over
`[a, b, c]` with an adapter echoing the field value to key "out". -/
theorem run_iter_aggregates_outputs_in_order_witness :
    ∃ n' s' rs,
      NodeWrapper.run adEcho envC nodeIterNoDisk st0 false = .ok (n', s') ∧
      n'.result = some ⟨RT.rlist rs,
        ["out"].map (fun k => (k, Value.vlist
          [Value.atom "a", Value.atom "b", Value.atom "c"]))⟩ ∧
      (∀ k ∈ ["out"],
        alGet (["out"].map (fun j => (j, Value.vlist
            [Value.atom "a", Value.atom "b", Value.atom "c"]))) k =
          some (Value.vlist [Value.atom "a", Value.atom "b", Value.atom "c"])) ∧
      (∀ k : String, ([Value.atom "a", Value.atom "b", Value.atom "c"] :
        List Value).length =
        ([Value.atom "a", Value.atom "b", Value.atom "c"] : List Value).length) :=
  run_iter_aggregates_outputs_in_order adEcho envC nodeIterNoDisk st0 "f"
    (Value.atom "a") (Value.atom "b") (Value.atom "c") ["out"]
    (fun _ v => v) rfl rfl rfl (by decide) (fun _ _ => rfl) (fun _ _ => rfl)
